import Mathlib

/-!
Verification of the file-identity reconciliation core of the Image-to-Music
server (`src/index.ts`).

The TypeScript source is shallowly embedded below.  Filesystem access is made
explicit: a directory listing (`fs.readdirSync` guarded by `fs.existsSync`)
becomes an `Option (List String)`, the stat table (`fs.statSync(..).mtimeMs`
guarded by `fs.existsSync`) becomes a function `String → Option Nat` from full
paths to modification times (`none` = the path does not exist or cannot be
statted), and `fs.readFileSync` on text files becomes `String → Option String`
(`none` = missing or unreadable).  JavaScript strings are modelled as Lean
`String`s, i.e. sequences of characters; `Map` objects are modelled as
insertion-ordered association lists, matching the iteration order that
JavaScript guarantees.  The `process.cwd()` prefix that `path.join` adds to the
three data directories is a common prefix of every path involved, so the
directories are modelled by their relative names.
-/

namespace ImageToMusic

/-! ### String primitives (models of the Node `path` / JS string operations) -/

/-- Index of the last occurrence of `c` in `l`, model of JS
`String.prototype.lastIndexOf` for a single character (`none` plays the role
of the `-1` result). -/
def lastIdxOf (c : Char) : List Char → Option Nat
  | [] => none
  | x :: xs =>
      match lastIdxOf c xs with
      | some i => some (i + 1)
      | none => if x = c then some 0 else none

/-- `s.substring(0, n)`: the first `n` characters of `s`. -/
def strTake (s : String) (n : Nat) : String := ⟨s.data.take n⟩

/-- `s.substring(n)`: all characters of `s` from index `n` on. -/
def strDrop (s : String) (n : Nat) : String := ⟨s.data.drop n⟩

/-- Node `path.parse(s).name` for a plain basename `s` (no directory
separators): everything before the extension.  The extension starts at the
last dot, except that a dot at index 0 or the special component `".."` yields
no extension. -/
def parseName (s : String) : String :=
  match lastIdxOf '.' s.data with
  | none => s
  | some i => if 0 < i ∧ s ≠ ".." then strTake s i else s

/-- Node `path.extname s` for a plain basename `s`: the extension including
the leading dot, `""` when there is none. -/
def extname (s : String) : String :=
  match lastIdxOf '.' s.data with
  | none => ""
  | some i => if 0 < i ∧ s ≠ ".." then strDrop s i else ""

/-- Node `path.join dir file` for a directory name and a plain basename. -/
def pathJoin (dir file : String) : String := dir ++ "/" ++ file

/-- The regular expression test `/^\d+$/.test s`: `s` is a non-empty string
of decimal digits. -/
def isNumericSuffix (s : String) : Bool :=
  decide (0 < s.length) && s.data.all Char.isDigit

/-- JS `s.toLowerCase()` on the extensions handled here: lower-case every
character. -/
def strToLower (s : String) : String := ⟨s.data.map Char.toLower⟩

/-- JS `s.trim()`: remove leading and trailing whitespace. -/
def strTrim (s : String) : String :=
  ⟨((s.data.dropWhile Char.isWhitespace).reverse.dropWhile Char.isWhitespace).reverse⟩

/-- `s` contains a dash (the spec's "the remaining stem contains a dash"). -/
def strContainsDash (s : String) : Bool := s.data.contains '-'

/-! ### The Naming/Identity Resolver (`getBaseName`, src/index.ts:250-263) -/

/-- Embedding of `getBaseName`: strip the extension; when the last dash of
the stem sits at a strictly positive index (`lastDashIndex > 0` in the
source) and the substring after it passes `/^\d+$/`, drop that trailing
dash-digits segment; otherwise return the stem unchanged. -/
def getBaseName (filename : String) : String :=
  let nameWithoutExt := parseName filename
  match lastIdxOf '-' nameWithoutExt.data with
  | none => nameWithoutExt
  | some lastDashIndex =>
      if 0 < lastDashIndex then
        let suffix := strDrop nameWithoutExt (lastDashIndex + 1)
        if isNumericSuffix suffix then strTake nameWithoutExt lastDashIndex
        else nameWithoutExt
      else nameWithoutExt

/-- The resolver exactly as the spec words it: "if the remaining stem
contains a dash and the substring after the last dash is composed entirely of
decimal digits (non-empty), strip that trailing dash-digits segment".  Note
the absence of any positivity condition on the dash position. -/
def resolveSpec (filename : String) : String :=
  let stem := parseName filename
  match lastIdxOf '-' stem.data with
  | none => stem
  | some i =>
      if isNumericSuffix (strDrop stem (i + 1)) then strTake stem i
      else stem

/-- The resolver as the spec reads after the forced amendment: stripping
additionally requires the last dash to sit at a strictly positive index. -/
def resolveAmended (filename : String) : String :=
  let stem := parseName filename
  match lastIdxOf '-' stem.data with
  | none => stem
  | some i =>
      if 0 < i ∧ isNumericSuffix (strDrop stem (i + 1)) = true then strTake stem i
      else stem

/-! ### Filesystem abstraction -/

/-- A stat table: modification time (`mtimeMs`) per full path, `none` when
the path does not exist.  `fs.existsSync p ? fs.statSync(p).mtimeMs : 0`
becomes `mtimeOf stat p`. -/
def mtimeOf (stat : String → Option Nat) (p : String) : Nat :=
  match stat p with
  | some t => t
  | none => 0

/-- Embedding of `readTextFile` (src/index.ts:265-275): `""` for a missing or
unreadable file, the trimmed content otherwise.  `read` is the file-system
read; `none` covers both the `existsSync` failure and the `catch` branch. -/
def readTextFile (read : String → Option String) (filePath : String) : String :=
  match read filePath with
  | none => ""
  | some content => strTrim content

/-- Embedding of `getFilesByExtension` (src/index.ts:286-294).  The directory
is given as `none` when `fs.existsSync dirPath` is false, and as
`some files` (the `fs.readdirSync` listing) otherwise. -/
def getFilesByExtension (dir : Option (List String)) (extensions : List String) :
    List String :=
  match dir with
  | none => []
  | some files => files.filter (fun file => extensions.contains (strToLower (extname file)))

/-! ### JavaScript `Map` model: insertion-ordered association list -/

/-- A JS `Map<string, string>` as an insertion-ordered association list with
distinct keys. -/
abbrev FileMap := List (String × String)

/-- `map.get k` (with `undefined` as `none`). -/
def mapGet : FileMap → String → Option String
  | [], _ => none
  | (k, v) :: m, b => if k = b then some v else mapGet m b

/-- `map.set k v`: replace the binding in place when the key is present,
append it otherwise — exactly the JS `Map` insertion-order semantics. -/
def mapSet : FileMap → String → String → FileMap
  | [], k, v => [(k, v)]
  | (k0, v0) :: m, k, v =>
      if k0 = k then (k, v) :: m else (k0, v0) :: mapSet m k v

/-! ### The File Reconciliation Map Builder (`createFileMap`, src/index.ts:296-321) -/

/-- One iteration of the `files.forEach` loop in `createFileMap`: insert an
unseen logical name, otherwise keep whichever file is newer, the existing one
winning ties (`newMtime > existingMtime` in the source). -/
def fmStep (stat : String → Option Nat) (getBaseNameFn : String → String)
    (dirPath : String) (map : FileMap) (file : String) : FileMap :=
  let baseName := getBaseNameFn file
  match mapGet map baseName with
  | none => mapSet map baseName file
  | some existingFile =>
      let existingMtime := mtimeOf stat (pathJoin dirPath existingFile)
      let newMtime := mtimeOf stat (pathJoin dirPath file)
      if existingMtime < newMtime then mapSet map baseName file else map

/-- Embedding of `createFileMap`: fold the listing through `fmStep` starting
from the empty map. -/
def createFileMap (stat : String → Option Nat) (files : List String)
    (getBaseNameFn : String → String) (dirPath : String) : FileMap :=
  files.foldl (fmStep stat getBaseNameFn dirPath) []

/-- The effect of one `createFileMap` iteration on the entry of a single
logical name. -/
def entryUpd (stat : String → Option Nat) (dirPath : String)
    (cur : Option String) (file : String) : Option String :=
  match cur with
  | none => some file
  | some existingFile =>
      if mtimeOf stat (pathJoin dirPath existingFile) <
          mtimeOf stat (pathJoin dirPath file)
      then some file else some existingFile

/-! ### The Cross-Directory Matcher (`matchFiles`, src/index.ts:330-368) -/

/-- The `PATHS.UPLOADS` directory, modelled by its name relative to the
process working directory. -/
def UPLOADS : String := "uploads"

/-- The `PATHS.OUTPUTS` directory. -/
def OUTPUTS : String := "outputs"

/-- The `PATHS.TEXTS` directory. -/
def TEXTS : String := "texts"

/-- `IMAGE_EXTENSIONS` (src/index.ts:33). -/
def IMAGE_EXTENSIONS : List String := [".jpg", ".jpeg", ".png", ".gif", ".webp"]

/-- `AUDIO_EXTENSIONS` (src/index.ts:34). -/
def AUDIO_EXTENSIONS : List String := [".wav"]

/-- The state of the filesystem as `matchFiles` observes it: the two
directory listings, the stat table and the text-file reader. -/
structure FS where
  uploadsDir : Option (List String)
  outputsDir : Option (List String)
  stat : String → Option Nat
  readFile : String → Option String

/-- The record `{ imageUrl, audioUrl, name, prompt? }` (src/index.ts:323-328);
the optional `prompt` field is an `Option`. -/
structure MatchedFile where
  imageUrl : String
  audioUrl : String
  name : String
  prompt : Option String
deriving DecidableEq, Repr

/-- `new Set(l)` read back in iteration order: keep the first occurrence of
each element of `l`, dropping later duplicates. -/
def dedupAux (seen : List String) : List String → List String
  | [] => []
  | x :: xs => if x ∈ seen then dedupAux seen xs else x :: dedupAux (x :: seen) xs

/-- The elements of `l` in first-occurrence order, the JS `Set` iteration
order for `new Set(l)`. -/
def dedupFirst (l : List String) : List String := dedupAux [] l

/-- `s.split('/')` on the character list of a string. -/
def splitOnChar (c : Char) : List Char → List (List Char)
  | [] => [[]]
  | x :: xs =>
      match splitOnChar c xs with
      | [] => [[]]
      | s :: rest => if x = c then [] :: s :: rest else (x :: s) :: rest

/-- `url.split('/').pop() || ''` (src/index.ts:359-360). -/
def lastUrlSegment (url : String) : String :=
  ⟨((splitOnChar '/' url.data).getLast?.getD [])⟩

/-- The sort key of a matched record: the modification time of the uploads
file named by the last segment of `imageUrl`, a missing file counting as
time zero (src/index.ts:359-363). -/
def recordMtime (stat : String → Option Nat) (r : MatchedFile) : Nat :=
  mtimeOf stat (pathJoin UPLOADS (lastUrlSegment r.imageUrl))

/-- Insert `x` into a list already sorted by descending `recordMtime`,
after every element with a strictly larger or equal key (the stable
behaviour of `Array.prototype.sort` with comparator `mtimeB - mtimeA`). -/
def insertDesc (stat : String → Option Nat) (x : MatchedFile) :
    List MatchedFile → List MatchedFile
  | [] => [x]
  | y :: ys =>
      if recordMtime stat y < recordMtime stat x then x :: y :: ys
      else y :: insertDesc stat x ys

/-- `matchedFiles.sort((a, b) => mtimeB - mtimeA)`: the stable sort of the
records by descending image modification time. -/
def sortByMtimeDesc (stat : String → Option Nat) (l : List MatchedFile) :
    List MatchedFile :=
  l.foldr (insertDesc stat) []

/-- The body of the `allBaseNames.forEach` loop (src/index.ts:340-355): emit
a record when both map entries are truthy (present and non-empty), reading
the optional prompt from `texts/<baseName>.txt`; `prompt || undefined` maps
the empty string to an absent field. -/
def emitRecord (read : String → Option String) (imageMap audioMap : FileMap)
    (baseName : String) : Option MatchedFile :=
  match mapGet imageMap baseName, mapGet audioMap baseName with
  | some imageFile, some audioFile =>
      if imageFile ≠ "" ∧ audioFile ≠ "" then
        let textFilePath := pathJoin TEXTS (baseName ++ ".txt")
        let prompt := readTextFile read textFilePath
        some { imageUrl := "/uploads/" ++ imageFile,
               audioUrl := "/outputs/" ++ audioFile,
               name := baseName,
               prompt := if prompt = "" then none else some prompt }
      else none
  | _, _ => none

/-- The image `FileMap` that `matchFiles` builds: the uploads listing
filtered to image extensions, reconciled with the suffix-stripping
resolver. -/
def imageMapOf (fs : FS) : FileMap :=
  createFileMap fs.stat (getFilesByExtension fs.uploadsDir IMAGE_EXTENSIONS)
    getBaseName UPLOADS

/-- The audio `FileMap` that `matchFiles` builds: the outputs listing
filtered to audio extensions, reconciled with the stem-only resolver
`(file) => path.parse(file).name`. -/
def audioMapOf (fs : FS) : FileMap :=
  createFileMap fs.stat (getFilesByExtension fs.outputsDir AUDIO_EXTENSIONS)
    (fun file => parseName file) OUTPUTS

/-- One step of the `allBaseNames.forEach` loop: push the emitted record, if
any, onto the accumulated `matchedFiles` array. -/
def pushMatched (read : String → Option String) (imageMap audioMap : FileMap)
    (acc : List MatchedFile) (baseName : String) : List MatchedFile :=
  match emitRecord read imageMap audioMap baseName with
  | some r => acc ++ [r]
  | none => acc

/-- Embedding of `matchFiles`: build both maps, form the union of their keys
(`new Set`), emit a record per key with both sides present, and sort by
descending image modification time. -/
def matchFiles (fs : FS) : List MatchedFile :=
  let imageMap := imageMapOf fs
  let audioMap := audioMapOf fs
  let allBaseNames := dedupFirst (imageMap.map Prod.fst ++ audioMap.map Prod.fst)
  let matchedFiles := allBaseNames.foldl (pushMatched fs.readFile imageMap audioMap) []
  sortByMtimeDesc fs.stat matchedFiles

/-! ### Naming in the `POST /api/generate` handler (src/index.ts:384-405) -/

/-- `const imageBaseName = path.parse(req.file.originalname).name`
(src/index.ts:392): the raw stem of the uploaded filename. -/
def imageBaseName (originalname : String) : String := parseName originalname

/-- `const outputFilename = imageBaseName + ".wav"` (src/index.ts:393). -/
def generateOutputFilename (originalname : String) : String :=
  imageBaseName originalname ++ ".wav"

/-- `const textFilePath = path.join(PATHS.TEXTS, imageBaseName + ".txt")`
(src/index.ts:404). -/
def generateTextFilePath (originalname : String) : String :=
  pathJoin TEXTS (imageBaseName originalname ++ ".txt")

/-! ### A concrete directory snapshot with image times 300, 100, 200 -/

/-- Stat table of the concrete snapshot: three uploaded images with
modification times 300, 100 and 200. -/
def exampleStat : String → Option Nat := fun p =>
  if p = "uploads/a.jpg" then some 300
  else if p = "uploads/b.jpg" then some 100
  else if p = "uploads/c.jpg" then some 200
  else none

/-- Stat table of the two-file builder witness snapshot: both files exist,
with times 1 and 2. -/
def witnessStat : String → Option Nat := fun p =>
  if p = "d/x-1.jpg" then some 1 else if p = "d/x-2.jpg" then some 2 else none

/-- Stat table of the tie snapshot: both files share modification time 5. -/
def tieStat : String → Option Nat := fun p =>
  if p = "d/x-1.jpg" then some 5 else if p = "d/x-2.jpg" then some 5 else none

/-- The concrete snapshot: three images, three matching audio files, no
prompt files. -/
def exampleFS : FS where
  uploadsDir := some ["a.jpg", "b.jpg", "c.jpg"]
  outputsDir := some ["a.wav", "b.wav", "c.wav"]
  stat := exampleStat
  readFile := fun _ => none

/-- A snapshot whose uploads directory is missing altogether. -/
def emptyFS : FS where
  uploadsDir := none
  outputsDir := some ["a.wav"]
  stat := fun _ => none
  readFile := fun _ => none

/-- A snapshot with one matched pair whose prompt file holds only
whitespace. -/
def promptFS : FS where
  uploadsDir := some ["a.jpg"]
  outputsDir := some ["a.wav"]
  stat := fun _ => none
  readFile := fun p => if p = "texts/a.txt" then some "   " else none

/-! ### Lemmas about the `Map` model -/

theorem strTake_ne_empty (s : String) (n : Nat) (hn : 0 < n) (hs : s ≠ "") :
    strTake s n ≠ "" := by
  obtain ⟨l⟩ := s
  cases l with
  | nil => exact absurd rfl hs
  | cons c cs =>
      cases n with
      | zero => exact absurd hn (by simp)
      | succ m =>
          intro h
          have hd : (c :: cs).take (m + 1) = [] := congrArg String.data h
          simp at hd

theorem mapGet_mapSet_self (m : FileMap) (k v : String) :
    mapGet (mapSet m k v) k = some v := by
  induction m with
  | nil => simp [mapSet, mapGet]
  | cons p m ih =>
      obtain ⟨k0, v0⟩ := p
      by_cases h : k0 = k
      · simp [mapSet, h, mapGet]
      · simp [mapSet, h, mapGet, ih]

theorem mapGet_mapSet_ne (m : FileMap) (k v b : String) (h : b ≠ k) :
    mapGet (mapSet m k v) b = mapGet m b := by
  induction m with
  | nil => simp [mapSet, mapGet, Ne.symm h]
  | cons p m ih =>
      obtain ⟨k0, v0⟩ := p
      by_cases h0 : k0 = k
      · subst h0
        simp [mapSet, mapGet, Ne.symm h]
      · simp [mapSet, h0, mapGet, ih]

theorem mapGet_fmStep (stat : String → Option Nat) (fn : String → String)
    (dirPath : String) (m : FileMap) (file b : String) :
    mapGet (fmStep stat fn dirPath m file) b =
      if fn file = b then entryUpd stat dirPath (mapGet m b) file
      else mapGet m b := by
  by_cases hfb : fn file = b
  · subst hfb
    cases hm : mapGet m (fn file) with
    | none => simp [fmStep, hm, entryUpd, mapGet_mapSet_self]
    | some e =>
        simp only [fmStep, hm, entryUpd, if_pos rfl]
        split
        · exact mapGet_mapSet_self m (fn file) file
        · exact hm
  · cases hm : mapGet m (fn file) with
    | none =>
        simp only [fmStep, hm, if_neg hfb]
        exact mapGet_mapSet_ne m (fn file) file b (fun h => hfb h.symm)
    | some e =>
        simp only [fmStep, hm, if_neg hfb]
        split
        · exact mapGet_mapSet_ne m (fn file) file b (fun h => hfb h.symm)
        · rfl

theorem mapGet_foldl_fmStep (stat : String → Option Nat) (fn : String → String)
    (dirPath : String) (files : List String) (b : String) :
    ∀ m : FileMap,
      mapGet (files.foldl (fmStep stat fn dirPath) m) b =
        (files.filter (fun f => fn f == b)).foldl (entryUpd stat dirPath)
          (mapGet m b) := by
  induction files with
  | nil => intro m; rfl
  | cons f fs ih =>
      intro m
      by_cases h : fn f = b
      · rw [List.foldl_cons, ih, List.filter_cons_of_pos (by simpa using h),
          List.foldl_cons, mapGet_fmStep, if_pos h]
      · rw [List.foldl_cons, ih, List.filter_cons_of_neg (by simpa using h),
          mapGet_fmStep, if_neg h]

theorem mapGet_createFileMap (stat : String → Option Nat) (files : List String)
    (fn : String → String) (dirPath b : String) :
    mapGet (createFileMap stat files fn dirPath) b =
      (files.filter (fun f => fn f == b)).foldl (entryUpd stat dirPath) none :=
  mapGet_foldl_fmStep stat fn dirPath files b []

theorem entryUpd_foldl_mem (stat : String → Option Nat) (dirPath : String)
    (fs : List String) :
    ∀ (cur : Option String) (v : String),
      fs.foldl (entryUpd stat dirPath) cur = some v → cur = some v ∨ v ∈ fs := by
  induction fs with
  | nil => intro cur v h; exact Or.inl h
  | cons f fs ih =>
      intro cur v h
      rw [List.foldl_cons] at h
      rcases ih (entryUpd stat dirPath cur f) v h with h1 | h1
      · cases cur with
        | none =>
            simp only [entryUpd] at h1
            exact Or.inr (by simp [← Option.some.injEq v f |>.mp h1.symm])
        | some e =>
            simp only [entryUpd] at h1
            split at h1
            · exact Or.inr (by simp [Option.some.injEq] at h1; simp [h1])
            · exact Or.inl h1
      · exact Or.inr (List.mem_cons_of_mem f h1)

theorem mapGet_createFileMap_mem (stat : String → Option Nat)
    (files : List String) (fn : String → String) (dirPath b v : String)
    (h : mapGet (createFileMap stat files fn dirPath) b = some v) : v ∈ files := by
  rw [mapGet_createFileMap] at h
  rcases entryUpd_foldl_mem stat dirPath _ none v h with h1 | h1
  · exact absurd h1 (by simp)
  · exact List.mem_of_mem_filter h1

theorem mapGet_isSome_iff_mem_keys (m : FileMap) (b : String) :
    (mapGet m b).isSome ↔ b ∈ m.map Prod.fst := by
  induction m with
  | nil => simp [mapGet]
  | cons p m ih =>
      obtain ⟨k, v⟩ := p
      by_cases h : k = b
      · simp [mapGet, h]
      · simp [mapGet, h, ih, Ne.symm h]

/-! ### Lemmas about the sort, the key union and the record emission -/

theorem insertDesc_perm (stat : String → Option Nat) (x : MatchedFile)
    (l : List MatchedFile) : (insertDesc stat x l).Perm (x :: l) := by
  induction l with
  | nil => exact List.Perm.refl _
  | cons y ys ih =>
      unfold insertDesc
      split
      · exact List.Perm.refl _
      · exact (ih.cons y).trans (List.Perm.swap x y ys)

theorem sortByMtimeDesc_perm (stat : String → Option Nat)
    (l : List MatchedFile) : (sortByMtimeDesc stat l).Perm l := by
  induction l with
  | nil => exact List.Perm.refl _
  | cons x xs ih =>
      exact (insertDesc_perm stat x _).trans (ih.cons x)

theorem insertDesc_pairwise (stat : String → Option Nat) (x : MatchedFile)
    (l : List MatchedFile)
    (h : l.Pairwise (fun a b => recordMtime stat b ≤ recordMtime stat a)) :
    (insertDesc stat x l).Pairwise
      (fun a b => recordMtime stat b ≤ recordMtime stat a) := by
  induction l with
  | nil => simp [insertDesc]
  | cons y ys ih =>
      rw [List.pairwise_cons] at h
      obtain ⟨hy, hys⟩ := h
      unfold insertDesc
      split
      · next hlt =>
          rw [List.pairwise_cons]
          refine ⟨?_, List.pairwise_cons.mpr ⟨hy, hys⟩⟩
          intro a ha
          rcases List.mem_cons.mp ha with rfl | ha
          · exact Nat.le_of_lt hlt
          · exact Nat.le_trans (hy a ha) (Nat.le_of_lt hlt)
      · next hnlt =>
          rw [List.pairwise_cons]
          refine ⟨?_, ih hys⟩
          intro a ha
          rcases List.mem_cons.mp ((insertDesc_perm stat x ys).mem_iff.mp ha)
            with rfl | ha2
          · exact Nat.not_lt.mp hnlt
          · exact hy a ha2

theorem sortByMtimeDesc_pairwise (stat : String → Option Nat)
    (l : List MatchedFile) :
    (sortByMtimeDesc stat l).Pairwise
      (fun a b => recordMtime stat b ≤ recordMtime stat a) := by
  induction l with
  | nil => simp [sortByMtimeDesc]
  | cons x xs ih => exact insertDesc_pairwise stat x _ ih

theorem mem_dedupAux (l : List String) :
    ∀ (seen : List String) (b : String),
      b ∈ dedupAux seen l ↔ b ∈ l ∧ b ∉ seen := by
  induction l with
  | nil => intro seen b; simp [dedupAux]
  | cons x xs ih =>
      intro seen b
      unfold dedupAux
      by_cases hx : x ∈ seen
      · rw [if_pos hx, ih]
        constructor
        · rintro ⟨h1, h2⟩
          exact ⟨List.mem_cons_of_mem x h1, h2⟩
        · rintro ⟨h1, h2⟩
          rcases List.mem_cons.mp h1 with rfl | h1
          · exact absurd hx h2
          · exact ⟨h1, h2⟩
      · rw [if_neg hx]
        constructor
        · intro h
          rcases List.mem_cons.mp h with rfl | h
          · exact ⟨List.mem_cons_self _ _, hx⟩
          · have h2 := (ih (x :: seen) b).mp h
            exact ⟨List.mem_cons_of_mem x h2.1,
              fun hb => h2.2 (List.mem_cons_of_mem x hb)⟩
        · rintro ⟨h1, h2⟩
          rcases List.mem_cons.mp h1 with rfl | h1
          · exact List.mem_cons_self _ _
          · by_cases hbx : b = x
            · subst hbx
              exact List.mem_cons_self _ _
            · refine List.mem_cons_of_mem x ((ih (x :: seen) b).mpr ⟨h1, ?_⟩)
              intro hb
              rcases List.mem_cons.mp hb with h3 | h3
              · exact hbx h3
              · exact h2 h3

theorem nodup_dedupAux (l : List String) :
    ∀ seen : List String, (dedupAux seen l).Nodup := by
  induction l with
  | nil => intro seen; simp [dedupAux]
  | cons x xs ih =>
      intro seen
      unfold dedupAux
      by_cases hx : x ∈ seen
      · rw [if_pos hx]
        exact ih seen
      · rw [if_neg hx]
        refine List.Nodup.cons ?_ (ih (x :: seen))
        intro hmem
        exact ((mem_dedupAux xs (x :: seen) x).mp hmem).2 (List.mem_cons_self _ _)

theorem mem_dedupFirst (l : List String) (b : String) :
    b ∈ dedupFirst l ↔ b ∈ l := by
  unfold dedupFirst
  rw [mem_dedupAux]
  simp

theorem nodup_dedupFirst (l : List String) : (dedupFirst l).Nodup :=
  nodup_dedupAux l []

theorem foldl_pushMatched (read : String → Option String) (im am : FileMap)
    (names : List String) :
    ∀ acc : List MatchedFile,
      names.foldl (pushMatched read im am) acc =
        acc ++ names.filterMap (emitRecord read im am) := by
  induction names with
  | nil => intro acc; simp
  | cons n ns ih =>
      intro acc
      rw [List.foldl_cons, List.filterMap_cons]
      cases h : emitRecord read im am n with
      | some r => rw [ih, pushMatched, h]; simp
      | none => rw [ih, pushMatched, h]

theorem matchFiles_eq (fs : FS) :
    matchFiles fs = sortByMtimeDesc fs.stat
      ((dedupFirst ((imageMapOf fs).map Prod.fst ++ (audioMapOf fs).map Prod.fst)).filterMap
        (emitRecord fs.readFile (imageMapOf fs) (audioMapOf fs))) := by
  unfold matchFiles
  dsimp only
  rw [foldl_pushMatched]
  rfl

theorem emitRecord_name (read : String → Option String) (im am : FileMap)
    (b : String) (r : MatchedFile) (h : emitRecord read im am b = some r) :
    r.name = b := by
  unfold emitRecord at h
  cases himg : mapGet im b with
  | none => rw [himg] at h; cases h
  | some i =>
      cases haud : mapGet am b with
      | none => rw [himg, haud] at h; cases h
      | some a =>
          rw [himg, haud] at h
          dsimp only at h
          split at h
          · injection h with h2
            subst h2
            rfl
          · cases h

theorem emitRecord_isSome_iff (read : String → Option String) (im am : FileMap)
    (b : String) :
    (emitRecord read im am b).isSome ↔
      ∃ i a, mapGet im b = some i ∧ mapGet am b = some a ∧ i ≠ "" ∧ a ≠ "" := by
  unfold emitRecord
  cases himg : mapGet im b with
  | none => simp
  | some i =>
      cases haud : mapGet am b with
      | none => simp
      | some a =>
          dsimp only
          by_cases hne : i ≠ "" ∧ a ≠ ""
          · rw [if_pos hne]
            simp [hne.1, hne.2]
          · rw [if_neg hne]
            simp only [Option.isSome_none, Bool.false_eq_true, false_iff]
            rintro ⟨i2, a2, hi2, ha2, hne1, hne2⟩
            injection hi2 with e1
            injection ha2 with e2
            subst e1
            subst e2
            exact hne ⟨hne1, hne2⟩

theorem emitRecord_eq_of (read : String → Option String) (im am : FileMap)
    (b i a : String) (himg : mapGet im b = some i) (haud : mapGet am b = some a)
    (hi : i ≠ "") (ha : a ≠ "") :
    emitRecord read im am b = some
      { imageUrl := "/uploads/" ++ i, audioUrl := "/outputs/" ++ a, name := b,
        prompt :=
          if readTextFile read (pathJoin TEXTS (b ++ ".txt")) = "" then none
          else some (readTextFile read (pathJoin TEXTS (b ++ ".txt"))) } := by
  unfold emitRecord
  rw [himg, haud]
  dsimp only
  rw [if_pos ⟨hi, ha⟩]

theorem length_filter_filterMap_emit (read : String → Option String)
    (im am : FileMap) (b : String) (names : List String) (hnd : names.Nodup) :
    ((names.filterMap (emitRecord read im am)).filter
        (fun r => r.name == b)).length =
      if b ∈ names ∧ (emitRecord read im am b).isSome then 1 else 0 := by
  induction names with
  | nil => simp
  | cons n ns ih =>
      obtain ⟨hn, hnd2⟩ := List.nodup_cons.mp hnd
      rw [List.filterMap_cons]
      cases h : emitRecord read im am n with
      | none =>
          rw [ih hnd2]
          by_cases hb : b = n
          · subst hb
            simp [h, hn]
          · simp [hb]
      | some r =>
          have hr := emitRecord_name read im am n r h
          rw [List.filter_cons]
          by_cases hb : b = n
          · subst hb
            rw [if_pos (by simp [hr]), List.length_cons, ih hnd2,
              if_neg (by simp [hn]),
              if_pos ⟨List.mem_cons_self _ _, by simp [h]⟩]
          · rw [if_neg (by simp [hr, Ne.symm hb]), ih hnd2]
            simp [List.mem_cons, hb]

theorem mem_getFilesByExtension (dir : Option (List String))
    (exts : List String) (f : String) :
    f ∈ getFilesByExtension dir exts ↔
      ∃ files, dir = some files ∧ f ∈ files ∧ strToLower (extname f) ∈ exts := by
  cases dir with
  | none => simp [getFilesByExtension]
  | some files => simp [getFilesByExtension, List.mem_filter, List.elem_iff]

theorem extension_mem_ne_empty (f : String)
    (h : strToLower (extname f) ∈ IMAGE_EXTENSIONS ∨
         strToLower (extname f) ∈ AUDIO_EXTENSIONS) : f ≠ "" := by
  rintro rfl
  revert h
  decide

theorem imageMapOf_ne_empty (fs : FS) (b v : String)
    (h : mapGet (imageMapOf fs) b = some v) : v ≠ "" := by
  have hv := mapGet_createFileMap_mem fs.stat _ getBaseName UPLOADS b v h
  obtain ⟨files, _, _, hext⟩ := (mem_getFilesByExtension _ _ _).mp hv
  exact extension_mem_ne_empty v (Or.inl hext)

theorem audioMapOf_ne_empty (fs : FS) (b v : String)
    (h : mapGet (audioMapOf fs) b = some v) : v ≠ "" := by
  have hv := mapGet_createFileMap_mem fs.stat _ (fun file => parseName file)
    OUTPUTS b v h
  obtain ⟨files, _, _, hext⟩ := (mem_getFilesByExtension _ _ _).mp hv
  exact extension_mem_ne_empty v (Or.inr hext)

theorem emitRecord_isSome_both (fs : FS) (b : String) :
    (emitRecord fs.readFile (imageMapOf fs) (audioMapOf fs) b).isSome ↔
      (mapGet (imageMapOf fs) b).isSome ∧ (mapGet (audioMapOf fs) b).isSome := by
  rw [emitRecord_isSome_iff]
  constructor
  · rintro ⟨i, a, hi, ha, _, _⟩
    simp [hi, ha]
  · rintro ⟨h1, h2⟩
    obtain ⟨i, hi⟩ := Option.isSome_iff_exists.mp h1
    obtain ⟨a, ha⟩ := Option.isSome_iff_exists.mp h2
    exact ⟨i, a, hi, ha, imageMapOf_ne_empty fs b i hi,
      audioMapOf_ne_empty fs b a ha⟩

theorem splitOnChar_cons (c x : Char) (xs s : List Char)
    (rest : List (List Char)) (hs : splitOnChar c xs = s :: rest) :
    splitOnChar c (x :: xs) =
      if x = c then [] :: s :: rest else (x :: s) :: rest := by
  unfold splitOnChar
  rw [hs]

theorem splitOnChar_ne_nil (c : Char) (l : List Char) : splitOnChar c l ≠ [] := by
  induction l with
  | nil => simp [splitOnChar]
  | cons x xs ih =>
      cases hs : splitOnChar c xs with
      | nil => exact absurd hs ih
      | cons s rest =>
          rw [splitOnChar_cons c x xs s rest hs]
          by_cases hx : x = c <;> simp [hx]

theorem splitOnChar_of_not_mem (c : Char) (l : List Char) (h : c ∉ l) :
    splitOnChar c l = [l] := by
  induction l with
  | nil => rfl
  | cons x xs ih =>
      have hx : x ≠ c := fun hxc => h (hxc ▸ List.mem_cons_self x xs)
      have hxs : c ∉ xs := fun hc => h (List.mem_cons_of_mem x hc)
      rw [splitOnChar_cons c x xs xs [] (ih hxs), if_neg hx]

theorem splitOnChar_length_ge_two (c : Char) (l : List Char) (h : c ∈ l) :
    2 ≤ (splitOnChar c l).length := by
  induction l with
  | nil => cases h
  | cons x xs ih =>
      cases hs : splitOnChar c xs with
      | nil => exact absurd hs (splitOnChar_ne_nil c xs)
      | cons s rest =>
          rw [splitOnChar_cons c x xs s rest hs]
          by_cases hx : x = c
          · simp [hx]
          · rcases List.mem_cons.mp h with h1 | h1
            · exact absurd h1.symm hx
            · have h2 := ih h1
              rw [hs] at h2
              simpa [hx] using h2

theorem splitOnChar_append_getLast (c : Char) (l₂ : List Char) (h : c ∉ l₂) :
    ∀ l₁ : List Char, (splitOnChar c (l₁ ++ c :: l₂)).getLast? = some l₂ := by
  intro l₁
  induction l₁ with
  | nil =>
      rw [List.nil_append,
        splitOnChar_cons c c l₂ l₂ [] (splitOnChar_of_not_mem c l₂ h), if_pos rfl]
      simp
  | cons x l₁ ih =>
      have hmem : c ∈ (l₁ ++ c :: l₂) :=
        List.mem_append_right l₁ (List.mem_cons_self c l₂)
      have hlen := splitOnChar_length_ge_two c _ hmem
      rw [List.cons_append]
      cases hs : splitOnChar c (l₁ ++ c :: l₂) with
      | nil => exact absurd hs (splitOnChar_ne_nil c _)
      | cons s rest =>
          rw [hs] at ih hlen
          cases rest with
          | nil => simp at hlen
          | cons r rest2 =>
              rw [splitOnChar_cons c x _ s (r :: rest2) hs]
              by_cases hx : x = c
              · rw [if_pos hx, List.getLast?_cons_cons]
                exact ih
              · rw [if_neg hx, List.getLast?_cons_cons]
                rw [List.getLast?_cons_cons] at ih
                exact ih

theorem lastUrlSegment_uploads (f : String) (hf : '/' ∉ f.data) :
    lastUrlSegment ("/uploads/" ++ f) = f := by
  unfold lastUrlSegment
  have hdata : ("/uploads/" ++ f).data =
      ['/', 'u', 'p', 'l', 'o', 'a', 'd', 's'] ++ '/' :: f.data := rfl
  rw [hdata, splitOnChar_append_getLast '/' f.data hf]
  cases f
  rfl

theorem emitRecord_mem_matchFiles (fs : FS) (b : String) (r : MatchedFile)
    (h : emitRecord fs.readFile (imageMapOf fs) (audioMapOf fs) b = some r)
    (hkey : (mapGet (imageMapOf fs) b).isSome) :
    r ∈ matchFiles fs := by
  rw [matchFiles_eq, (sortByMtimeDesc_perm fs.stat _).mem_iff]
  refine List.mem_filterMap.mpr ⟨b, ?_, h⟩
  rw [mem_dedupFirst, List.mem_append]
  exact Or.inl ((mapGet_isSome_iff_mem_keys _ b).mp hkey)

/-! ### C3: matching is intersection of the two key sets -/

/-- C3: for every snapshot and logical name, `matchFiles` emits exactly one
record for the name when both the image map and the audio map contain it,
and none otherwise. -/
theorem matchFiles_intersection (fs : FS) (b : String) :
    ((matchFiles fs).filter (fun r => r.name == b)).length =
      if (mapGet (imageMapOf fs) b).isSome ∧ (mapGet (audioMapOf fs) b).isSome
      then 1 else 0 := by
  rw [matchFiles_eq,
    ((sortByMtimeDesc_perm fs.stat _).filter (fun r => r.name == b)).length_eq,
    length_filter_filterMap_emit fs.readFile _ _ b _ (nodup_dedupFirst _)]
  by_cases hcond :
      (mapGet (imageMapOf fs) b).isSome ∧ (mapGet (audioMapOf fs) b).isSome
  · have hmem : b ∈ dedupFirst
        ((imageMapOf fs).map Prod.fst ++ (audioMapOf fs).map Prod.fst) := by
      rw [mem_dedupFirst, List.mem_append]
      exact Or.inl ((mapGet_isSome_iff_mem_keys _ b).mp hcond.1)
    rw [if_pos ⟨hmem, (emitRecord_isSome_both fs b).mpr hcond⟩, if_pos hcond]
  · have hno : ¬(b ∈ dedupFirst
        ((imageMapOf fs).map Prod.fst ++ (audioMapOf fs).map Prod.fst) ∧
        (emitRecord fs.readFile (imageMapOf fs) (audioMapOf fs) b).isSome) := by
      rintro ⟨_, hsome⟩
      exact hcond ((emitRecord_isSome_both fs b).mp hsome)
    rw [if_neg hno, if_neg hcond]

/-! ### C4: records are returned newest image first -/

/-- C4: the output of `matchFiles` is pairwise sorted in descending order of
the record's image modification time (`recordMtime`, which is the uploaded
image's modification time, with a missing file counting as zero, whenever
the image filename contains no slash); on the concrete snapshot with image
times 300, 100, 200, the returned order is 300, 200, 100. -/
theorem matchFiles_sorted_desc :
    (∀ fs : FS, (matchFiles fs).Pairwise
      (fun a b => recordMtime fs.stat b ≤ recordMtime fs.stat a)) ∧
    (∀ f : String, '/' ∉ f.data → lastUrlSegment ("/uploads/" ++ f) = f) ∧
    matchFiles exampleFS =
      [{ imageUrl := "/uploads/a.jpg", audioUrl := "/outputs/a.wav",
         name := "a", prompt := none },
       { imageUrl := "/uploads/c.jpg", audioUrl := "/outputs/c.wav",
         name := "c", prompt := none },
       { imageUrl := "/uploads/b.jpg", audioUrl := "/outputs/b.wav",
         name := "b", prompt := none }] := by
  refine ⟨fun fs => ?_, fun f hf => lastUrlSegment_uploads f hf, by decide⟩
  rw [matchFiles_eq]
  exact sortByMtimeDesc_pairwise fs.stat _

/-- C4 (witness): the slash-free conjunct instantiated at `"a.jpg"`. -/
theorem matchFiles_sorted_desc_witness :
    lastUrlSegment ("/uploads/" ++ "a.jpg") = "a.jpg" :=
  matchFiles_sorted_desc.2.1 "a.jpg" (by decide)

/-! ### C6: a missing prompt file is non-fatal -/

/-- C6: a logical name present in both maps is still emitted when its prompt
file is missing or unreadable, with the prompt field absent; and the matcher
never fails as a whole — in the degenerate case of a missing uploads
directory it returns the empty sequence. -/
theorem matchFiles_missing_prompt_nonfatal :
    (∀ (fs : FS) (b : String),
      (mapGet (imageMapOf fs) b).isSome → (mapGet (audioMapOf fs) b).isSome →
      fs.readFile (pathJoin TEXTS (b ++ ".txt")) = none →
      ∃ r, r ∈ matchFiles fs ∧ r.name = b ∧ r.prompt = none) ∧
    (∀ fs : FS, fs.uploadsDir = none → matchFiles fs = []) := by
  constructor
  · intro fs b h1 h2 hread
    obtain ⟨i, hi⟩ := Option.isSome_iff_exists.mp h1
    obtain ⟨a, ha⟩ := Option.isSome_iff_exists.mp h2
    have hrec := emitRecord_eq_of fs.readFile (imageMapOf fs) (audioMapOf fs)
      b i a hi ha (imageMapOf_ne_empty fs b i hi) (audioMapOf_ne_empty fs b a ha)
    have hprompt : readTextFile fs.readFile (pathJoin TEXTS (b ++ ".txt")) = "" := by
      unfold readTextFile
      rw [hread]
    refine ⟨_, emitRecord_mem_matchFiles fs b _ hrec (by simp [hi]), rfl, ?_⟩
    simp [hprompt]
  · intro fs h
    rw [matchFiles_eq]
    have him : imageMapOf fs = [] := by
      unfold imageMapOf getFilesByExtension
      rw [h]
      rfl
    have hemit : ∀ x, emitRecord fs.readFile (imageMapOf fs) (audioMapOf fs) x = none := by
      intro x
      unfold emitRecord
      rw [him]
      cases mapGet (audioMapOf fs) x <;> rfl
    rw [List.filterMap_eq_nil_iff.mpr (fun a _ => hemit a)]
    rfl

/-- C6 (witness): on the example snapshot (no prompt files at all) the
matched pair `"a"` is emitted without a prompt, and a snapshot with no
uploads directory yields the empty sequence. -/
theorem matchFiles_missing_prompt_witness :
    (∃ r, r ∈ matchFiles exampleFS ∧ r.name = "a" ∧ r.prompt = none) ∧
    matchFiles emptyFS = [] :=
  ⟨matchFiles_missing_prompt_nonfatal.1 exampleFS "a" (by decide) (by decide) rfl,
   matchFiles_missing_prompt_nonfatal.2 emptyFS rfl⟩

/-! ### C10: a whitespace-only prompt file is treated as missing -/

/-- C10: `readTextFile` trims the prompt file's content, and a matched
record whose prompt file holds only whitespace (trimmed content empty) is
emitted with the prompt field absent, exactly as if the file were missing. -/
theorem matchFiles_whitespace_prompt_omitted (fs : FS) (b content : String)
    (h1 : (mapGet (imageMapOf fs) b).isSome)
    (h2 : (mapGet (audioMapOf fs) b).isSome)
    (hread : fs.readFile (pathJoin TEXTS (b ++ ".txt")) = some content)
    (hws : strTrim content = "") :
    readTextFile fs.readFile (pathJoin TEXTS (b ++ ".txt")) = strTrim content ∧
    ∃ r, r ∈ matchFiles fs ∧ r.name = b ∧ r.prompt = none := by
  have hprompt : readTextFile fs.readFile (pathJoin TEXTS (b ++ ".txt"))
      = strTrim content := by
    unfold readTextFile
    rw [hread]
  refine ⟨hprompt, ?_⟩
  obtain ⟨i, hi⟩ := Option.isSome_iff_exists.mp h1
  obtain ⟨a, ha⟩ := Option.isSome_iff_exists.mp h2
  have hrec := emitRecord_eq_of fs.readFile (imageMapOf fs) (audioMapOf fs)
    b i a hi ha (imageMapOf_ne_empty fs b i hi) (audioMapOf_ne_empty fs b a ha)
  refine ⟨_, emitRecord_mem_matchFiles fs b _ hrec (by simp [hi]), rfl, ?_⟩
  simp [hprompt, hws]

/-- C10 (witness): on the snapshot whose prompt file for `"a"` holds three
spaces, the record is emitted with no prompt. -/
theorem matchFiles_whitespace_prompt_witness :
    readTextFile promptFS.readFile (pathJoin TEXTS ("a" ++ ".txt")) = strTrim "   " ∧
    ∃ r, r ∈ matchFiles promptFS ∧ r.name = "a" ∧ r.prompt = none :=
  matchFiles_whitespace_prompt_omitted promptFS "a" "   " (by decide) (by decide)
    (by decide) (by decide)

/-! ### C1: the Naming/Identity Resolver against the spec wording -/

/-- C1 (counterexample): on `"-123.jpg"` the stem `"-123"` contains a dash and
the substring after the last dash is the non-empty digit string `"123"`, so
the claimed algorithm (faithfully transcribed as `resolveSpec`) strips it and
returns `""`; `getBaseName` instead leaves the stem unchanged because the last
dash sits at index 0. -/
theorem getBaseName_spec_counterexample :
    strContainsDash (parseName "-123.jpg") = true ∧
    isNumericSuffix (strDrop (parseName "-123.jpg") 1) = true ∧
    resolveSpec "-123.jpg" = "" ∧
    getBaseName "-123.jpg" = "-123" ∧
    getBaseName "-123.jpg" ≠ resolveSpec "-123.jpg" := by decide

/-- C1 (amended): `getBaseName` strips the extension and then strips a
trailing dash-digits segment exactly when the last dash of the stem sits at a
strictly positive index and the substring after it is a non-empty string of
decimal digits (`resolveAmended`); the four examples of the spec all hold. -/
theorem getBaseName_matches_amended_spec :
    (∀ filename, getBaseName filename = resolveAmended filename) ∧
    getBaseName "sunset-1700000000.jpg" = "sunset" ∧
    getBaseName "sunset.jpg" = "sunset" ∧
    getBaseName "a-b-12.png" = "a-b" ∧
    getBaseName "a-b.png" = "a-b" := by
  refine ⟨fun filename => ?_, by decide, by decide, by decide, by decide⟩
  unfold getBaseName resolveAmended
  dsimp only
  cases hidx : lastIdxOf '-' (parseName filename).data with
  | none => rfl
  | some i =>
      by_cases hi : 0 < i
      · by_cases hs : isNumericSuffix (strDrop (parseName filename) (i + 1)) = true
        · simp [hi, hs]
        · simp [hi, hs]
      · simp [hi]

/-! ### C9: suffix stripping needs a strictly positive dash index -/

/-- C9: when the last dash of the stem is its first character the stem is
returned unchanged, and consequently `getBaseName` never turns a non-empty
stem into the empty string. -/
theorem getBaseName_positive_index_only :
    (∀ filename, lastIdxOf '-' (parseName filename).data = some 0 →
      getBaseName filename = parseName filename) ∧
    (∀ filename, parseName filename ≠ "" → getBaseName filename ≠ "") := by
  constructor
  · intro filename h
    unfold getBaseName
    dsimp only
    rw [h]
    simp
  · intro filename hne
    unfold getBaseName
    dsimp only
    cases hidx : lastIdxOf '-' (parseName filename).data with
    | none => exact hne
    | some i =>
        by_cases hi : 0 < i
        · by_cases hs :
            isNumericSuffix (strDrop (parseName filename) (i + 1)) = true
          · simpa [hi, hs] using strTake_ne_empty (parseName filename) i hi hne
          · simpa [hi, hs] using hne
        · simpa [hi] using hne

/-- C9 (witness): instantiated at `"-123.jpg"`, whose stem has its only dash
at index 0. -/
theorem getBaseName_positive_index_only_witness :
    getBaseName "-123.jpg" = parseName "-123.jpg" ∧ getBaseName "-123.jpg" ≠ "" :=
  ⟨getBaseName_positive_index_only.1 "-123.jpg" (by decide),
   getBaseName_positive_index_only.2 "-123.jpg" (by decide)⟩

/-! ### C2: the builder keeps the newest file -/

/-- C2: a path the stat table does not know (a missing file) is compared
with modification time zero; when exactly the two files `f1`, `f2` of the
listing share the logical name `b` and `f1` is strictly older than `f2`, the
built map sends `b` to `f2` in either input order; and when the candidate
`f2` arrives second with a modification time equal to or older than the
existing `f1`'s, the existing entry `f1` is kept. -/
theorem createFileMap_keeps_newest (stat : String → Option Nat)
    (files : List String) (fn : String → String) (dirPath b f1 f2 : String) :
    (∀ p, stat p = none → mtimeOf stat p = 0) ∧
    (mtimeOf stat (pathJoin dirPath f1) < mtimeOf stat (pathJoin dirPath f2) →
      (files.filter (fun f => fn f == b) = [f1, f2] ∨
       files.filter (fun f => fn f == b) = [f2, f1]) →
      mapGet (createFileMap stat files fn dirPath) b = some f2) ∧
    (files.filter (fun f => fn f == b) = [f1, f2] →
      mtimeOf stat (pathJoin dirPath f2) ≤ mtimeOf stat (pathJoin dirPath f1) →
      mapGet (createFileMap stat files fn dirPath) b = some f1) := by
  refine ⟨fun p hp => by simp [mtimeOf, hp], ?_, ?_⟩
  · intro ht hfilter
    rw [mapGet_createFileMap]
    rcases hfilter with h | h <;> rw [h]
    · simp [entryUpd, ht]
    · simp [entryUpd, Nat.lt_asymm ht]
  · intro hfilter hle
    rw [mapGet_createFileMap, hfilter]
    simp [entryUpd, Nat.not_lt.mpr hle]

/-- C2 (witness): two files of logical name `"x"`; with times 1 < 2 the newer
one wins, and with tied times 5 = 5 the first-listed entry is kept. -/
theorem createFileMap_keeps_newest_witness :
    mapGet (createFileMap witnessStat ["x-1.jpg", "x-2.jpg"] getBaseName "d") "x"
      = some "x-2.jpg" ∧
    mapGet (createFileMap tieStat ["x-1.jpg", "x-2.jpg"] getBaseName "d") "x"
      = some "x-1.jpg" :=
  ⟨(createFileMap_keeps_newest witnessStat ["x-1.jpg", "x-2.jpg"] getBaseName "d"
      "x" "x-1.jpg" "x-2.jpg").2.1 (by decide) (Or.inl (by decide)),
   (createFileMap_keeps_newest tieStat ["x-1.jpg", "x-2.jpg"] getBaseName "d"
      "x" "x-1.jpg" "x-2.jpg").2.2 (by decide) (by decide)⟩

/-! ### C8: the builder is deterministic in the directory snapshot -/

/-- C8: `createFileMap` depends only on the listing and the stat table; two
builds over stat tables that agree on every path (the same directory
snapshot, in particular the same snapshot twice) yield identical maps. -/
theorem createFileMap_deterministic (stat1 stat2 : String → Option Nat)
    (files : List String) (fn : String → String) (dirPath : String)
    (h : ∀ p, stat1 p = stat2 p) :
    createFileMap stat1 files fn dirPath = createFileMap stat2 files fn dirPath := by
  rw [funext h]

/-- C8 (witness): rebuilding from the example snapshot yields the same map. -/
theorem createFileMap_deterministic_witness :
    createFileMap exampleStat ["a.jpg", "b.jpg"] getBaseName UPLOADS =
      createFileMap exampleStat ["a.jpg", "b.jpg"] getBaseName UPLOADS :=
  createFileMap_deterministic exampleStat exampleStat ["a.jpg", "b.jpg"]
    getBaseName UPLOADS (fun _ => rfl)

/-! ### C7: the Directory Scanner -/

/-- C7: a missing directory yields the empty list, and an existing
directory's result contains exactly the listed files whose lower-cased
extension (leading dot included) belongs to the accepted set. -/
theorem getFilesByExtension_spec (dir : Option (List String))
    (extensions : List String) :
    (dir = none → getFilesByExtension dir extensions = []) ∧
    (∀ files f, dir = some files →
      (f ∈ getFilesByExtension dir extensions ↔
        f ∈ files ∧ strToLower (extname f) ∈ extensions)) := by
  constructor
  · intro h; rw [h]; rfl
  · intro files f hdir
    subst hdir
    simp [getFilesByExtension, List.mem_filter, List.elem_iff]

/-- C7 (witness): a mixed listing keeps `"photo.JPG"` (upper-case extension)
and the missing-directory case returns `[]`. -/
theorem getFilesByExtension_spec_witness :
    getFilesByExtension none IMAGE_EXTENSIONS = [] ∧
    ("photo.JPG" ∈ getFilesByExtension (some ["photo.JPG", "notes.txt"])
        IMAGE_EXTENSIONS ↔
      "photo.JPG" ∈ ["photo.JPG", "notes.txt"] ∧
        strToLower (extname "photo.JPG") ∈ IMAGE_EXTENSIONS) :=
  ⟨(getFilesByExtension_spec none IMAGE_EXTENSIONS).1 rfl,
   (getFilesByExtension_spec (some ["photo.JPG", "notes.txt"]) IMAGE_EXTENSIONS).2
     ["photo.JPG", "notes.txt"] "photo.JPG" rfl⟩

/-! ### C5: output naming in the generate handler -/

/-- C5 (counterexample): for the uploaded filename `"photo-123.jpg"` the
handler names the audio file after the raw stem, `"photo-123.wav"`, while
the Naming/Identity Resolver derives the logical name `"photo"`; the audio
file is not named `<logicalName>.wav`. -/
theorem generate_naming_counterexample :
    generateOutputFilename "photo-123.jpg" = "photo-123.wav" ∧
    generateTextFilePath "photo-123.jpg" = "texts/photo-123.txt" ∧
    getBaseName "photo-123.jpg" = "photo" ∧
    generateOutputFilename "photo-123.jpg" ≠ getBaseName "photo-123.jpg" ++ ".wav" := by
  decide

/-- C5 (amended): the generated audio and prompt files are named
`<stem>.wav` and `<stem>.txt` where `stem` is the uploaded filename with the
extension stripped but no dash-digits stripping; whenever the resolver
leaves the stem unchanged this coincides with `<logicalName>.wav` /
`<logicalName>.txt`. -/
theorem generate_naming_stem :
    (∀ originalname,
      generateOutputFilename originalname = parseName originalname ++ ".wav" ∧
      generateTextFilePath originalname =
        pathJoin TEXTS (parseName originalname ++ ".txt")) ∧
    (∀ originalname, getBaseName originalname = parseName originalname →
      generateOutputFilename originalname = getBaseName originalname ++ ".wav" ∧
      generateTextFilePath originalname =
        pathJoin TEXTS (getBaseName originalname ++ ".txt")) := by
  refine ⟨fun n => ⟨rfl, rfl⟩, fun n h => ?_⟩
  rw [h]
  exact ⟨rfl, rfl⟩

/-- C5 (witness): instantiated at `"photo.jpg"`, whose stem is its own
logical name. -/
theorem generate_naming_stem_witness :
    generateOutputFilename "photo.jpg" = getBaseName "photo.jpg" ++ ".wav" ∧
    generateTextFilePath "photo.jpg" =
      pathJoin TEXTS (getBaseName "photo.jpg" ++ ".txt") :=
  generate_naming_stem.2 "photo.jpg" (by decide)

end ImageToMusic
